import Mathlib

set_option maxHeartbeats 1000000

/-!
Verification of the `circular_buffer` repository.

The single-reader ring (`src/circular_buffer.rs`, `CircularBuffer<T, CAPACITY>`,
and `src/circular_buffer_dyn.rs`, `CircularBufferDyn<T>`) and the multi-reader
ring (`src/circular_buffer_multi_read.rs`, `CircularBufferMultiRead`) are
embedded shallowly: the backing array becomes a `List`, `usize` becomes `Nat`,
and every operation that can panic in Rust (slice indexing out of range,
`usize` subtraction underflow, `%` by zero, explicit panic calls) returns
`Option`, with `none` standing for the aborted call.
-/

/-- Models the Rust statement `l[start..start + src.len()].copy_from_slice(&src)`:
the contiguous region of `l` beginning at `start` is replaced by `src`.
Callers check `start + src.length ≤ l.length` (the source panics otherwise). -/
def setSlice (l : List α) (start : Nat) (src : List α) : List α :=
  l.take start ++ src ++ l.drop (start + src.length)

theorem setSlice_length (l : List α) (start : Nat) (src : List α)
    (h : start + src.length ≤ l.length) : (setSlice l start src).length = l.length := by
  simp [setSlice]
  omega

/-- State of the single-reader ring.  This embeds both
`CircularBuffer<T, CAPACITY>` (src/circular_buffer.rs) and `CircularBufferDyn<T>`
(src/circular_buffer_dyn.rs): their buffer methods are textually identical, the
only difference being that the capacity is a const generic in the former and the
`capacity` field (always equal to `buffer.len()`) in the latter.  The field
`capacity` here plays both roles. -/
structure CircularBuffer (α : Type) where
  buffer : List α
  capacity : Nat
  read_cursor : Nat
  write_cursor : Nat
deriving DecidableEq, Repr

/-- `CircularBuffer::new` / `CircularBufferDyn::new`: default-filled storage,
both cursors at 0. -/
def CircularBuffer.new (α : Type) [Inhabited α] (capacity : Nat) : CircularBuffer α :=
  { buffer := List.replicate capacity default
    capacity := capacity
    read_cursor := 0
    write_cursor := 0 }

/-- `CircularBuffer::len` / `CircularBufferDyn::len`. -/
def CircularBuffer.len (s : CircularBuffer α) : Nat :=
  min (if s.write_cursor ≥ s.read_cursor then s.write_cursor - s.read_cursor
       else s.capacity - (s.read_cursor - s.write_cursor)) s.capacity

/-- `CircularBuffer::is_empty` / `CircularBufferDyn::is_empty`. -/
def CircularBuffer.is_empty (s : CircularBuffer α) : Bool :=
  s.len = 0

/-- `CircularBuffer::is_full` / `CircularBufferDyn::is_full`. -/
def CircularBuffer.is_full (s : CircularBuffer α) : Bool :=
  s.len = s.capacity - 1

/-- `CircularBuffer::extend` / `CircularBufferDyn::extend`, one recursion layer
per unit of `fuel`.  Panics of the source are `none`: the `usize` underflow in
`input[..available_space - 1]` when `available_space == 0`, an out-of-range
buffer write, and `% capacity` with capacity 0.  Running out of fuel models the
source diverging (which `extend` does when `capacity - write_cursor == 0`, a
situation no well-formed state produces); the top-level `extend` hands enough
fuel for every terminating run, since every recursive call of the source passes
a strictly shorter slice whenever `capacity - write_cursor > 0`. -/
def CircularBuffer.extendGo : Nat → CircularBuffer α → List α → Option (Nat × CircularBuffer α)
  | 0, _, _ => none
  | fuel + 1, s, input =>
    let used_space := s.len
    let available_space := s.capacity - used_space
    let required_space := input.length
    if required_space ≥ available_space then
      if available_space = 0 then none
      else CircularBuffer.extendGo fuel s (input.take (available_space - 1))
    else
      let available_space_before_wrap := s.capacity - s.write_cursor
      if available_space_before_wrap < required_space then
        match CircularBuffer.extendGo fuel s (input.take available_space_before_wrap) with
        | none => none
        | some (n1, s1) =>
          match CircularBuffer.extendGo fuel s1 (input.drop available_space_before_wrap) with
          | none => none
          | some (n2, s2) => some (n1 + n2, s2)
      else
        if s.write_cursor + required_space ≤ s.buffer.length ∧ 0 < s.capacity then
          some (required_space,
            { s with buffer := setSlice s.buffer s.write_cursor input
                     write_cursor := (s.write_cursor + required_space) % s.capacity })
        else none

/-- `CircularBuffer::extend` / `CircularBufferDyn::extend`. -/
def CircularBuffer.extend (s : CircularBuffer α) (input : List α) :
    Option (Nat × CircularBuffer α) :=
  CircularBuffer.extendGo (input.length + 1) s input

/-- `CircularBufferDyn::push`. -/
def CircularBuffer.push (s : CircularBuffer α) (input : α) : Option (Nat × CircularBuffer α) :=
  s.extend [input]

/-- `CircularBuffer::take_to_buffer` / `CircularBufferDyn::take_to_buffer`.
Returns the taken amount, the new state, and the mutated output buffer.
`none` models a panic: an out-of-range buffer read, or the `usize` underflow in
`self.read_cursor -= CAPACITY` when the cursor is below capacity there. -/
def CircularBuffer.take_to_buffer (s : CircularBuffer α) (output : List α) :
    Option (Nat × CircularBuffer α × List α) :=
  let used_space := s.len
  if used_space = 0 then some (0, s, output)
  else
    let used_required_space := min used_space output.length
    let straight_space := min used_required_space (s.capacity - s.read_cursor)
    if s.read_cursor + straight_space ≤ s.buffer.length then
      let output1 := setSlice output 0 ((s.buffer.drop s.read_cursor).take straight_space)
      let rc1 := s.read_cursor + straight_space
      let wrapped_space := used_required_space - straight_space
      if wrapped_space = 0 then
        some (straight_space, { s with read_cursor := rc1 }, output1)
      else if rc1 < s.capacity then none
      else
        let rc2 := rc1 - s.capacity
        if rc2 + wrapped_space ≤ s.buffer.length then
          some (straight_space + wrapped_space,
            { s with read_cursor := rc2 + wrapped_space },
            setSlice output1 straight_space ((s.buffer.drop rc2).take wrapped_space))
        else none
    else none

/-- `CircularBuffer::take` / `CircularBufferDyn::take`. -/
def CircularBuffer.take [Inhabited α] (s : CircularBuffer α) (amount : Nat) :
    Option (List α × CircularBuffer α) :=
  let output_buffer := List.replicate amount (default : α)
  match s.take_to_buffer output_buffer with
  | none => none
  | some (written_amount, s1, output) => some (output.take written_amount, s1)

/-- The backing store rotated so the slot the read cursor denotes comes first
(the cursor taken mod capacity, which is how the ring consumes it). -/
def CircularBuffer.rot (s : CircularBuffer α) : List α :=
  s.buffer.drop (s.read_cursor % s.capacity) ++ s.buffer.take (s.read_cursor % s.capacity)

/-- The logical contents of the ring: its `len` unread elements in read order. -/
def CircularBuffer.contents (s : CircularBuffer α) : List α :=
  s.rot.take s.len

/-- Well-formedness of a single-reader ring state.  The read cursor may reach
`capacity` itself: `take_to_buffer` leaves it there after consuming exactly up
to the end of the array. -/
abbrev CircularBuffer.Inv (s : CircularBuffer α) : Prop :=
  s.buffer.length = s.capacity ∧ s.read_cursor ≤ s.capacity ∧
    (s.write_cursor < s.capacity ∨ (s.capacity = 0 ∧ s.write_cursor = 0))

theorem CircularBuffer.inv_new (α : Type) [Inhabited α] (capacity : Nat) :
    (CircularBuffer.new α capacity).Inv := by
  constructor
  · simp [CircularBuffer.new]
  constructor
  · simp [CircularBuffer.new]
  · simp [CircularBuffer.new]
    omega

theorem CircularBuffer.len_le (s : CircularBuffer α) (h : s.Inv) :
    s.len ≤ s.capacity - 1 := by
  obtain ⟨hb, hr, hw⟩ := h
  unfold CircularBuffer.len
  split <;> omega

theorem CircularBuffer.len_zero_of_cursor_eq (s : CircularBuffer α)
    (h : s.write_cursor = s.read_cursor) : s.len = 0 := by
  unfold CircularBuffer.len
  rw [h]
  simp

theorem CircularBuffer.len_zero_iff_mod (s : CircularBuffer α) (h : s.Inv) :
    s.len = 0 ↔ s.write_cursor % s.capacity = s.read_cursor % s.capacity := by
  obtain ⟨hb, hr, hw⟩ := h
  rcases hw with hw | ⟨hc, hw⟩
  · have hwm : s.write_cursor % s.capacity = s.write_cursor := Nat.mod_eq_of_lt hw
    rcases Nat.lt_or_ge s.read_cursor s.capacity with hrlt | hrge
    · have hrm : s.read_cursor % s.capacity = s.read_cursor := Nat.mod_eq_of_lt hrlt
      rw [hwm, hrm]
      unfold CircularBuffer.len
      split <;> omega
    · have hrc : s.read_cursor = s.capacity := le_antisymm hr hrge
      rw [hwm, hrc, Nat.mod_self]
      unfold CircularBuffer.len
      rw [hrc]
      split <;> omega
  · have hrc : s.read_cursor = 0 := by omega
    unfold CircularBuffer.len
    rw [hc, hw, hrc]
    simp

theorem CircularBuffer.rot_length (s : CircularBuffer α) (h : s.buffer.length = s.capacity) :
    s.rot.length = s.capacity := by
  unfold CircularBuffer.rot
  simp
  omega

theorem CircularBuffer.contents_length (s : CircularBuffer α) (h : s.Inv) :
    s.contents.length = s.len := by
  unfold CircularBuffer.contents
  rw [List.length_take, CircularBuffer.rot_length s h.1]
  have := CircularBuffer.len_le s h
  omega

theorem CircularBuffer.contents_new (α : Type) [Inhabited α] (capacity : Nat) :
    (CircularBuffer.new α capacity).contents = [] := by
  unfold CircularBuffer.contents CircularBuffer.len
  simp [CircularBuffer.new]

theorem CircularBuffer.len_mod_form (s : CircularBuffer α) (h : s.Inv) :
    s.len = if s.read_cursor % s.capacity ≤ s.write_cursor
      then s.write_cursor - s.read_cursor % s.capacity
      else s.capacity - (s.read_cursor % s.capacity - s.write_cursor) := by
  obtain ⟨hb, hr, hwor⟩ := h
  unfold CircularBuffer.len
  rcases hwor with hw | ⟨hc, hw⟩
  · rcases Nat.lt_or_ge s.read_cursor s.capacity with hlt | hge
    · rw [Nat.mod_eq_of_lt hlt]
      split_ifs <;> omega
    · have hrc : s.read_cursor = s.capacity := by omega
      rw [hrc, Nat.mod_self]
      split_ifs <;> omega
  · have hrc : s.read_cursor = 0 := by omega
    rw [hrc, hc, hw]
    simp

/-- Writing `input` contiguously at the write cursor (no wraparound, enough free
room to keep the sentinel slot) appends `input` at position `u` (the used
length) of the rotated view of the backing store. -/
theorem rotWrite (b input : List α) (cap rc' wc u : Nat)
    (hb : b.length = cap) (hrc' : rc' < cap) (hw : wc < cap)
    (hu : u = if rc' ≤ wc then wc - rc' else cap - (rc' - wc))
    (hfit : wc + input.length ≤ cap)
    (hroom : u + input.length ≤ cap - 1) :
    (setSlice b wc input).drop rc' ++ (setSlice b wc input).take rc' =
      setSlice (b.drop rc' ++ b.take rc') u input := by
  have hlt1 : (b.take wc).length = wc := by rw [List.length_take]; omega
  have hdl : (b.drop rc').length = cap - rc' := by rw [List.length_drop]; omega
  by_cases hcase : rc' ≤ wc
  · have hu' : u = wc - rc' := by rw [hu, if_pos hcase]
    have e1 : (setSlice b wc input).drop rc'
        = (b.drop rc').take (wc - rc') ++ (input ++ b.drop (wc + input.length)) := by
      simp only [setSlice]
      rw [List.append_assoc, List.drop_append_eq_append_drop, hlt1,
        Nat.sub_eq_zero_of_le hcase, List.drop_zero, List.drop_take]
    have e2 : (setSlice b wc input).take rc' = b.take rc' := by
      simp only [setSlice]
      rw [List.append_assoc, List.take_append_eq_append_take, hlt1,
        Nat.sub_eq_zero_of_le hcase, List.take_zero, List.append_nil, List.take_take,
        Nat.min_eq_left hcase]
    have e3 : (b.drop rc' ++ b.take rc').take u = (b.drop rc').take u := by
      rw [List.take_append_eq_append_take, hdl,
        Nat.sub_eq_zero_of_le (by omega : u ≤ cap - rc'), List.take_zero, List.append_nil]
    have e4 : (b.drop rc' ++ b.take rc').drop (u + input.length)
        = b.drop (wc + input.length) ++ b.take rc' := by
      rw [List.drop_append_eq_append_drop, hdl,
        Nat.sub_eq_zero_of_le (by omega : u + input.length ≤ cap - rc'), List.drop_zero,
        List.drop_drop]
      congr 2
      omega
    rw [e1, e2]
    simp only [setSlice]
    rw [e3, e4, hu']
    simp [List.append_assoc]
  · have hu' : u = cap - (rc' - wc) := by rw [hu, if_neg hcase]
    have hwn : wc + input.length < rc' := by omega
    have hA : (b.take wc).drop rc' = [] := List.drop_eq_nil_of_le (by rw [hlt1]; omega)
    have hB : input.drop (rc' - wc) = [] := List.drop_eq_nil_of_le (by omega)
    have hA2 : (b.take wc).take rc' = b.take wc := List.take_of_length_le (by rw [hlt1]; omega)
    have hB2 : input.take (rc' - wc) = input := List.take_of_length_le (by omega)
    have e1 : (setSlice b wc input).drop rc' = b.drop rc' := by
      simp only [setSlice]
      rw [List.append_assoc, List.drop_append_eq_append_drop, hlt1, hA,
        List.drop_append_eq_append_drop, hB, List.drop_drop]
      simp only [List.nil_append]
      congr 1
      omega
    have e2 : (setSlice b wc input).take rc'
        = b.take wc ++ (input ++ (b.drop (wc + input.length)).take (rc' - wc - input.length)) := by
      simp only [setSlice]
      rw [List.append_assoc, List.take_append_eq_append_take, hlt1, hA2,
        List.take_append_eq_append_take, hB2]
    have e3 : (b.drop rc' ++ b.take rc').take u = b.drop rc' ++ b.take wc := by
      rw [List.take_append_eq_append_take, hdl,
        List.take_of_length_le (by omega : (b.drop rc').length ≤ u)]
      congr 1
      rw [show u - (cap - rc') = wc by omega, List.take_take, Nat.min_eq_left (by omega : wc ≤ rc')]
    have e4 : (b.drop rc' ++ b.take rc').drop (u + input.length)
        = (b.drop (wc + input.length)).take (rc' - wc - input.length) := by
      rw [List.drop_append_eq_append_drop, hdl,
        List.drop_eq_nil_of_le (by rw [hdl]; omega : (b.drop rc').length ≤ u + input.length),
        List.nil_append,
        show u + input.length - (cap - rc') = wc + input.length by omega,
        List.drop_take]
      congr 1
      omega
    rw [e1, e2]
    simp only [setSlice]
    rw [e3, e4]
    simp [List.append_assoc]

theorem CircularBuffer.len_write (s : CircularBuffer α) (b' : List α) (n : Nat)
    (h : s.Inv) (hc : 0 < s.capacity)
    (hfit : s.write_cursor + n ≤ s.capacity)
    (hroom : s.len + n ≤ s.capacity - 1) :
    ({ s with buffer := b'
              write_cursor := (s.write_cursor + n) % s.capacity } : CircularBuffer α).len
      = s.len + n := by
  obtain ⟨hb, hr, hwor⟩ := h
  have hw : s.write_cursor < s.capacity := by rcases hwor with h' | h' <;> omega
  have hm : (s.write_cursor + n) % s.capacity
      = if s.write_cursor + n < s.capacity then s.write_cursor + n else 0 := by
    split
    · exact Nat.mod_eq_of_lt (by assumption)
    · rw [show s.write_cursor + n = s.capacity by omega, Nat.mod_self]
  unfold CircularBuffer.len at hroom ⊢
  dsimp only at hroom ⊢
  rw [hm]
  split_ifs at hroom ⊢ <;> omega

theorem CircularBuffer.extendGo_spec (fuel : Nat) :
    ∀ (s : CircularBuffer α) (input : List α), s.Inv → 0 < s.capacity →
      input.length < fuel →
      ∃ s', CircularBuffer.extendGo fuel s input
          = some (min input.length (s.capacity - 1 - s.len), s') ∧
        s'.Inv ∧ s'.capacity = s.capacity ∧ s'.read_cursor = s.read_cursor ∧
        s'.len = s.len + min input.length (s.capacity - 1 - s.len) ∧
        s'.write_cursor
          = (s.write_cursor + min input.length (s.capacity - 1 - s.len)) % s.capacity ∧
        s'.contents = s.contents ++ input.take (s.capacity - 1 - s.len) := by
  induction fuel with
  | zero => intro s input _ _ hf; omega
  | succ fuel ih =>
    intro s input hInv hc hf
    obtain ⟨hb, hr, hwor⟩ := hInv
    have hw : s.write_cursor < s.capacity := by rcases hwor with h' | h' <;> omega
    have hlenle : s.len ≤ s.capacity - 1 := CircularBuffer.len_le s ⟨hb, hr, hwor⟩
    simp only [CircularBuffer.extendGo]
    by_cases h1 : input.length ≥ s.capacity - s.len
    · rw [if_pos h1, if_neg (show ¬(s.capacity - s.len = 0) by omega)]
      have htl : (input.take (s.capacity - s.len - 1)).length = s.capacity - s.len - 1 := by
        rw [List.length_take]; omega
      have hfl : (input.take (s.capacity - s.len - 1)).length < fuel := by rw [htl]; omega
      obtain ⟨s', hgo, hInv', hcap', hrc', hlen', hwc', hcont'⟩ :=
        ih s (input.take (s.capacity - s.len - 1)) ⟨hb, hr, hwor⟩ hc hfl
      have hmin : min (input.take (s.capacity - s.len - 1)).length (s.capacity - 1 - s.len)
          = min input.length (s.capacity - 1 - s.len) := by rw [htl]; omega
      refine ⟨s', ?_, hInv', hcap', hrc', ?_, ?_, ?_⟩
      · rw [hgo, hmin]
      · rw [hlen', hmin]
      · rw [hwc', hmin]
      · rw [hcont', List.take_take,
          show min (s.capacity - 1 - s.len) (s.capacity - s.len - 1) = s.capacity - 1 - s.len
            by omega]
    · push_neg at h1
      rw [if_neg (by omega : ¬input.length ≥ s.capacity - s.len)]
      by_cases h2 : s.capacity - s.write_cursor < input.length
      · rw [if_pos h2]
        have htl1 : (input.take (s.capacity - s.write_cursor)).length
            = s.capacity - s.write_cursor := by rw [List.length_take]; omega
        have hfl1 : (input.take (s.capacity - s.write_cursor)).length < fuel := by
          rw [htl1]; omega
        obtain ⟨s1, hgo1, hInv1, hcap1, hrc1, hlen1, hwc1, hcont1⟩ :=
          ih s (input.take (s.capacity - s.write_cursor)) ⟨hb, hr, hwor⟩ hc hfl1
        have hmin1 : min (input.take (s.capacity - s.write_cursor)).length
            (s.capacity - 1 - s.len) = s.capacity - s.write_cursor := by rw [htl1]; omega
        rw [hmin1] at hgo1 hlen1 hwc1
        have hwc1' : s1.write_cursor = 0 := by
          rw [hwc1, show s.write_cursor + (s.capacity - s.write_cursor) = s.capacity by omega,
            Nat.mod_self]
        have htl2 : (input.drop (s.capacity - s.write_cursor)).length
            = input.length - (s.capacity - s.write_cursor) := by rw [List.length_drop]
        have hfl2 : (input.drop (s.capacity - s.write_cursor)).length < fuel := by
          rw [htl2]; omega
        obtain ⟨s2, hgo2, hInv2, hcap2, hrc2, hlen2, hwc2, hcont2⟩ :=
          ih s1 (input.drop (s.capacity - s.write_cursor)) hInv1 (by rw [hcap1]; exact hc) hfl2
        have hmin2 : min (input.drop (s.capacity - s.write_cursor)).length
            (s1.capacity - 1 - s1.len) = input.length - (s.capacity - s.write_cursor) := by
          rw [htl2, hcap1, hlen1]; omega
        rw [hmin2] at hgo2 hlen2 hwc2
        simp only [hgo1, hgo2]
        refine ⟨s2, ?_, hInv2, by rw [hcap2, hcap1], by rw [hrc2, hrc1], ?_, ?_, ?_⟩
        · rw [show s.capacity - s.write_cursor
              + (input.length - (s.capacity - s.write_cursor))
              = min input.length (s.capacity - 1 - s.len) by omega]
        · rw [hlen2, hlen1]
          omega
        · rw [hwc2, hwc1', hcap1, Nat.zero_add,
            show min input.length (s.capacity - 1 - s.len) = input.length by omega]
          rw [show s.write_cursor + input.length
              = s.capacity + (input.length - (s.capacity - s.write_cursor)) by omega,
            Nat.add_mod_left]
        · have hc1' : s1.contents = s.contents ++ input.take (s.capacity - s.write_cursor) := by
            rw [hcont1, List.take_of_length_le (by rw [htl1]; omega)]
          have hc2' : s2.contents = s1.contents ++ input.drop (s.capacity - s.write_cursor) := by
            rw [hcont2, List.take_of_length_le (by rw [htl2, hcap1, hlen1]; omega)]
          rw [hc2', hc1', List.append_assoc, List.take_append_drop,
            List.take_of_length_le (by omega : input.length ≤ s.capacity - 1 - s.len)]
      · rw [if_neg h2]
        rw [if_pos (⟨by omega, hc⟩ : s.write_cursor + input.length ≤ s.buffer.length
            ∧ 0 < s.capacity)]
        have hminb : min input.length (s.capacity - 1 - s.len) = input.length := by omega
        have hfit : s.write_cursor + input.length ≤ s.capacity := by omega
        have hroom : s.len + input.length ≤ s.capacity - 1 := by omega
        refine ⟨{ s with buffer := setSlice s.buffer s.write_cursor input
                         write_cursor := (s.write_cursor + input.length) % s.capacity },
          by rw [hminb], ?_, rfl, rfl, ?_, by rw [hminb], ?_⟩
        · refine ⟨?_, hr, Or.inl (Nat.mod_lt _ hc)⟩
          dsimp only
          rw [setSlice_length s.buffer s.write_cursor input (by omega), hb]
        · rw [hminb]
          exact CircularBuffer.len_write s _ input.length ⟨hb, hr, hwor⟩ hc hfit hroom
        · have hlw := CircularBuffer.len_write s
            (setSlice s.buffer s.write_cursor input) input.length ⟨hb, hr, hwor⟩ hc hfit hroom
          unfold CircularBuffer.contents CircularBuffer.rot
          dsimp only
          rw [hlw]
          have hrc' : s.read_cursor % s.capacity < s.capacity := Nat.mod_lt _ hc
          rw [rotWrite s.buffer input s.capacity (s.read_cursor % s.capacity) s.write_cursor
            s.len hb hrc' hw (CircularBuffer.len_mod_form s ⟨hb, hr, hwor⟩) hfit hroom]
          have hrotlen : (s.buffer.drop (s.read_cursor % s.capacity)
              ++ s.buffer.take (s.read_cursor % s.capacity)).length = s.capacity := by
            simp; omega
          simp only [setSlice]
          rw [List.take_append_eq_append_take]
          have hXlen : ((s.buffer.drop (s.read_cursor % s.capacity)
              ++ s.buffer.take (s.read_cursor % s.capacity)).take s.len ++ input).length
              = s.len + input.length := by
            rw [List.length_append, List.length_take, hrotlen]
            omega
          rw [List.take_of_length_le (by rw [hXlen] : _ ≤ s.len + input.length),
            Nat.sub_eq_zero_of_le (by rw [hXlen]), List.take_zero, List.append_nil,
            List.take_of_length_le (by omega : input.length ≤ s.capacity - 1 - s.len)]

theorem CircularBuffer.len_of_capacity_zero (s : CircularBuffer α) (hcap : s.capacity = 0) :
    s.len = 0 := by
  unfold CircularBuffer.len
  rw [hcap]
  simp

theorem CircularBuffer.extend_none_of_capacity_zero (s : CircularBuffer α) (input : List α)
    (hcap : s.capacity = 0) : s.extend input = none := by
  have hl : s.len = 0 := CircularBuffer.len_of_capacity_zero s hcap
  unfold CircularBuffer.extend
  simp only [CircularBuffer.extendGo]
  rw [if_pos (by omega : input.length ≥ s.capacity - s.len),
    if_pos (by omega : s.capacity - s.len = 0)]

theorem CircularBuffer.extend_spec (s : CircularBuffer α) (input : List α)
    (h : s.Inv) (hc : 0 < s.capacity) :
    ∃ s', s.extend input = some (min input.length (s.capacity - 1 - s.len), s') ∧
      s'.Inv ∧ s'.capacity = s.capacity ∧ s'.read_cursor = s.read_cursor ∧
      s'.len = s.len + min input.length (s.capacity - 1 - s.len) ∧
      s'.write_cursor
        = (s.write_cursor + min input.length (s.capacity - 1 - s.len)) % s.capacity ∧
      s'.contents = s.contents ++ input.take (s.capacity - 1 - s.len) :=
  CircularBuffer.extendGo_spec (input.length + 1) s input h hc (Nat.lt_succ_self _)

theorem CircularBuffer.take_to_buffer_spec (s : CircularBuffer α) (output : List α)
    (h : s.Inv) :
    ∃ s', s.take_to_buffer output
        = some (min s.len output.length, s',
            s.contents.take (min s.len output.length)
              ++ output.drop (min s.len output.length)) ∧
      s'.Inv ∧ s'.buffer = s.buffer ∧ s'.capacity = s.capacity ∧
      s'.write_cursor = s.write_cursor ∧
      s'.len = s.len - min s.len output.length ∧
      s'.contents = s.contents.drop (min s.len output.length) ∧
      s'.read_cursor % s.capacity
        = (s.read_cursor + min s.len output.length) % s.capacity ∧
      (s.len = 0 → s' = s) := by
  obtain ⟨hb, hr, hwor⟩ := h
  by_cases hu0 : s.len = 0
  · refine ⟨s, ?_, ⟨hb, hr, hwor⟩, rfl, rfl, rfl, by omega, ?_, by rw [hu0]; simp, fun _ => rfl⟩
    · unfold CircularBuffer.take_to_buffer
      rw [if_pos hu0, hu0]
      simp
    · rw [hu0]
      simp
  · have hc : 0 < s.capacity := by
      by_contra hc0
      exact hu0 (CircularBuffer.len_of_capacity_zero s (by omega))
    have hw : s.write_cursor < s.capacity := by rcases hwor with h' | h' <;> omega
    have hlenle : s.len ≤ s.capacity - 1 := CircularBuffer.len_le s ⟨hb, hr, hwor⟩
    have hlchar : s.len = if s.read_cursor % s.capacity ≤ s.write_cursor
        then s.write_cursor - s.read_cursor % s.capacity
        else s.capacity - (s.read_cursor % s.capacity - s.write_cursor) :=
      CircularBuffer.len_mod_form s ⟨hb, hr, hwor⟩
    unfold CircularBuffer.take_to_buffer
    rw [if_neg hu0]
    set ur := min s.len output.length with hur
    set st := min ur (s.capacity - s.read_cursor) with hst
    rw [if_pos (show s.read_cursor + st ≤ s.buffer.length by rw [hb]; omega)]
    have hsrc1len : ((s.buffer.drop s.read_cursor).take st).length = st := by
      rw [List.length_take, List.length_drop, hb]; omega
    have hcontake : s.contents.take ur = s.rot.take ur := by
      unfold CircularBuffer.contents
      rw [List.take_take, Nat.min_eq_left (by omega : ur ≤ s.len)]
    have hcontdrop : s.contents.drop ur = (s.rot.drop ur).take (s.len - ur) := by
      unfold CircularBuffer.contents
      rw [List.drop_take]
    by_cases hwr : ur - st = 0
    · rw [if_pos hwr]
      have hstur : st = ur := by omega
      by_cases hur0 : ur = 0
      · refine ⟨{ s with read_cursor := s.read_cursor + st }, ?_, ⟨hb, by dsimp only; omega, hwor⟩,
          rfl, rfl, rfl, ?_, ?_, by dsimp only; rw [hstur], fun h0 => absurd h0 hu0⟩
        · rw [hstur, hur0]
          simp [setSlice]
        · rw [hstur, hur0, Nat.add_zero, Nat.sub_zero]
        · rw [hstur, hur0, Nat.add_zero, List.drop_zero]
      · -- the read fits before the physical end of the array
        have hrclt : s.read_cursor < s.capacity := by omega
        have hrcmod : s.read_cursor % s.capacity = s.read_cursor := Nat.mod_eq_of_lt hrclt
        rw [hrcmod] at hlchar
        have hlen' : ({ s with read_cursor := s.read_cursor + st } : CircularBuffer α).len
            = s.len - ur := by
          unfold CircularBuffer.len
          dsimp only
          rw [hstur]
          split_ifs at hlchar ⊢ <;> omega
        have hout : setSlice output 0 ((s.buffer.drop s.read_cursor).take st)
            = s.contents.take ur ++ output.drop ur := by
          rw [hcontake]
          unfold CircularBuffer.rot
          rw [hrcmod,
            List.take_append_of_le_length (by rw [List.length_drop, hb]; omega)]
          simp only [setSlice, List.take_zero, List.nil_append, Nat.zero_add]
          rw [hsrc1len, hstur]
        have hcont' : ({ s with read_cursor := s.read_cursor + st } : CircularBuffer α).contents
            = s.contents.drop ur := by
          rw [hcontdrop]
          unfold CircularBuffer.contents CircularBuffer.rot
          dsimp only
          rw [hlen', hstur]
          rcases Nat.lt_or_ge (s.read_cursor + ur) s.capacity with h5 | h5
          · rw [Nat.mod_eq_of_lt h5, hrcmod,
              List.drop_append_eq_append_drop, List.drop_drop,
              show ur - (s.buffer.drop s.read_cursor).length = 0 from by
                rw [List.length_drop, hb]; omega,
              List.drop_zero,
              List.take_append_eq_append_take, List.take_append_eq_append_take,
              List.take_take, List.take_take,
              show min (s.len - ur - (s.buffer.drop (s.read_cursor + ur)).length)
                  (s.read_cursor + ur)
                = min (s.len - ur - (s.buffer.drop (s.read_cursor + ur)).length) s.read_cursor
                from by
                  rw [List.length_drop, hb]
                  split_ifs at hlchar <;> omega]
          · have h6 : s.read_cursor + ur = s.capacity := by omega
            rw [h6, Nat.mod_self, hrcmod, List.drop_zero, List.take_zero, List.append_nil,
              List.drop_append_eq_append_drop,
              List.drop_eq_nil_of_le
                (show (s.buffer.drop s.read_cursor).length ≤ ur from by
                  rw [List.length_drop, hb]; omega),
              show ur - (s.buffer.drop s.read_cursor).length = 0 from by
                rw [List.length_drop, hb]; omega,
              List.drop_zero, List.nil_append, List.take_take,
              show min (s.len - ur) s.read_cursor = s.len - ur from by
                split_ifs at hlchar <;> omega]
        refine ⟨{ s with read_cursor := s.read_cursor + st }, ?_,
          ⟨hb, by dsimp only; omega, hwor⟩, rfl, rfl, rfl, hlen', hcont',
          by dsimp only; rw [hstur], fun h0 => absurd h0 hu0⟩
        rw [hout, ← hst, hstur]
    · rw [if_neg hwr]
      have hstv : st = s.capacity - s.read_cursor := by omega
      rw [if_neg (by omega : ¬(s.read_cursor + st < s.capacity))]
      rw [show s.read_cursor + st - s.capacity = 0 by omega]
      rw [if_pos (show 0 + (ur - st) ≤ s.buffer.length by rw [hb]; omega)]
      rw [List.drop_zero]
      set w := ur - st with hwdef
      have hsum : st + w = ur := by omega
      rcases Nat.lt_or_ge s.read_cursor s.capacity with hrclt | hrcge
      · -- the read wraps: the write cursor is strictly below the read cursor
        have hrcmod : s.read_cursor % s.capacity = s.read_cursor := Nat.mod_eq_of_lt hrclt
        rw [hrcmod] at hlchar
        have hwcr : s.write_cursor < s.read_cursor := by
          by_contra hge
          split_ifs at hlchar <;> omega
        rw [if_neg (by omega : ¬s.read_cursor ≤ s.write_cursor)] at hlchar
        have hwwc : w ≤ s.write_cursor := by omega
        have hwlt : w < s.capacity := by omega
        have hs1 : (s.buffer.drop s.read_cursor).take st = s.buffer.drop s.read_cursor :=
          List.take_of_length_le (by rw [List.length_drop, hb]; omega)
        have htwlen : (s.buffer.take w).length = w := by rw [List.length_take, hb]; omega
        have ho1 : setSlice output 0 ((s.buffer.drop s.read_cursor).take st)
            = s.buffer.drop s.read_cursor ++ output.drop st := by
          rw [hs1]
          simp only [setSlice, List.take_zero, List.nil_append, Nat.zero_add, List.length_drop,
            hb]
          rw [hstv]
        have hlen2 : ({ s with read_cursor := 0 + w } : CircularBuffer α).len
            = s.len - ur := by
          unfold CircularBuffer.len
          dsimp only
          split_ifs <;> omega
        have hout2 : setSlice (setSlice output 0 ((s.buffer.drop s.read_cursor).take st)) st
            (s.buffer.take w) = s.contents.take ur ++ output.drop ur := by
          rw [ho1, hcontake]
          unfold CircularBuffer.rot
          rw [hrcmod]
          simp only [setSlice]
          rw [htwlen,
            List.take_append_of_le_length (by rw [List.length_drop, hb]; omega), hs1,
            List.drop_append_eq_append_drop,
            List.drop_eq_nil_of_le
              (show (s.buffer.drop s.read_cursor).length ≤ st + w from by
                rw [List.length_drop, hb]; omega),
            show st + w - (s.buffer.drop s.read_cursor).length = w from by
              rw [List.length_drop, hb]; omega,
            List.drop_drop, hsum, List.nil_append,
            List.take_append_eq_append_take,
            List.take_of_length_le (show (s.buffer.drop s.read_cursor).length ≤ ur from by
              rw [List.length_drop, hb]; omega),
            show ur - (s.buffer.drop s.read_cursor).length = w from by
              rw [List.length_drop, hb]; omega,
            List.take_take,
            show min w s.read_cursor = w from by omega]
        have hcont2 : ({ s with read_cursor := 0 + w } : CircularBuffer α).contents
            = s.contents.drop ur := by
          rw [hcontdrop]
          unfold CircularBuffer.contents CircularBuffer.rot
          dsimp only
          rw [hlen2, Nat.zero_add, Nat.mod_eq_of_lt hwlt, hrcmod,
            List.drop_append_eq_append_drop, List.drop_drop,
            List.drop_eq_nil_of_le (show s.buffer.length ≤ s.read_cursor + ur from by
              rw [hb]; omega),
            show ur - (s.buffer.drop s.read_cursor).length = w from by
              rw [List.length_drop, hb]; omega,
            List.nil_append, List.drop_take,
            List.take_append_eq_append_take,
            show s.len - ur - (s.buffer.drop w).length = 0 from by
              rw [List.length_drop, hb]; omega,
            List.take_zero, List.append_nil, List.take_take,
            show min (s.len - ur) (s.read_cursor - w) = s.len - ur from by omega]
        refine ⟨{ s with read_cursor := 0 + w }, ?_,
          ⟨hb, by dsimp only; omega, hwor⟩, rfl, rfl, rfl, hlen2, hcont2, ?_,
          fun h0 => absurd h0 hu0⟩
        · rw [hout2, hsum]
        · dsimp only
          rw [Nat.zero_add, show s.read_cursor + ur = s.capacity + w from by omega,
            Nat.add_mod_left]
      · -- the read cursor sits exactly at capacity and wraps to zero at once
        have hrceq : s.read_cursor = s.capacity := by omega
        have hrcmod0 : s.read_cursor % s.capacity = 0 := by rw [hrceq, Nat.mod_self]
        rw [hrcmod0] at hlchar
        have hlwc : s.len = s.write_cursor := by split_ifs at hlchar <;> omega
        have hst0 : st = 0 := by omega
        have hwur : w = ur := by omega
        have hwlt : w < s.capacity := by omega
        have htwlen : (s.buffer.take w).length = w := by rw [List.length_take, hb]; omega
        have ho1 : setSlice output 0 ((s.buffer.drop s.read_cursor).take st) = output := by
          rw [hst0]
          simp [setSlice]
        have hlen2 : ({ s with read_cursor := 0 + w } : CircularBuffer α).len
            = s.len - ur := by
          unfold CircularBuffer.len
          dsimp only
          split_ifs <;> omega
        have hout2 : setSlice (setSlice output 0 ((s.buffer.drop s.read_cursor).take st)) st
            (s.buffer.take w) = s.contents.take ur ++ output.drop ur := by
          rw [ho1, hst0, hcontake]
          unfold CircularBuffer.rot
          rw [hrcmod0]
          simp only [setSlice, List.take_zero, List.nil_append, Nat.zero_add, List.drop_zero,
            List.append_nil]
          rw [htwlen, hwur]
        have hcont2 : ({ s with read_cursor := 0 + w } : CircularBuffer α).contents
            = s.contents.drop ur := by
          rw [hcontdrop]
          unfold CircularBuffer.contents CircularBuffer.rot
          dsimp only
          rw [hlen2, Nat.zero_add, Nat.mod_eq_of_lt hwlt, hrcmod0]
          simp only [List.drop_zero, List.take_zero, List.append_nil]
          rw [List.take_append_eq_append_take,
            show s.len - ur - (s.buffer.drop w).length = 0 from by
              rw [List.length_drop, hb]; omega,
            List.take_zero, List.append_nil, hwur]
        refine ⟨{ s with read_cursor := 0 + w }, ?_,
          ⟨hb, by dsimp only; omega, hwor⟩, rfl, rfl, rfl, hlen2, hcont2, ?_,
          fun h0 => absurd h0 hu0⟩
        · rw [hout2, hsum]
        · dsimp only
          rw [Nat.zero_add, show s.read_cursor + ur = s.capacity + w from by omega,
            Nat.add_mod_left]

theorem take_eq_take_min (l : List α) (n : Nat) : l.take (min l.length n) = l.take n := by
  rcases Nat.le_total l.length n with h | h
  · rw [Nat.min_eq_left h, List.take_length, List.take_of_length_le h]
  · rw [Nat.min_eq_right h]

theorem drop_eq_drop_min (l : List α) (n : Nat) : l.drop (min l.length n) = l.drop n := by
  rcases Nat.le_total l.length n with h | h
  · rw [Nat.min_eq_left h, List.drop_length, List.drop_eq_nil_of_le h]
  · rw [Nat.min_eq_right h]

theorem CircularBuffer.take_spec [Inhabited α] (s : CircularBuffer α) (amount : Nat)
    (h : s.Inv) :
    ∃ s', s.take amount = some (s.contents.take amount, s') ∧
      s'.Inv ∧ s'.buffer = s.buffer ∧ s'.capacity = s.capacity ∧
      s'.write_cursor = s.write_cursor ∧
      s'.len = s.len - amount ∧
      s'.contents = s.contents.drop amount ∧
      s'.read_cursor % s.capacity = (s.read_cursor + min s.len amount) % s.capacity ∧
      (s.len = 0 → s' = s) := by
  obtain ⟨s', hsome, hInv', hbuf', hcap', hwc', hlen', hcont', hrc', hid'⟩ :=
    CircularBuffer.take_to_buffer_spec s (List.replicate amount (default : α)) h
  rw [List.length_replicate] at hsome hlen' hcont' hrc'
  have hclen : s.contents.length = s.len := CircularBuffer.contents_length s h
  have hm : (s.contents.take (min s.len amount)).length = min s.len amount := by
    rw [List.length_take, hclen]
    omega
  refine ⟨s', ?_, hInv', hbuf', hcap', hwc', by omega, ?_, hrc', hid'⟩
  · simp only [CircularBuffer.take]
    simp only [hsome]
    rw [List.take_append_of_le_length (by rw [hm]), List.take_take, Nat.min_self,
      ← hclen, take_eq_take_min]
  · rw [hcont', ← hclen, drop_eq_drop_min]

/-- A single buffer operation of the single-reader ring, as the claims range
over them: a batched write, a single-element write, or a batched read. -/
inductive Op (α : Type) where
  | ext : List α → Op α
  | psh : α → Op α
  | tk : Nat → Op α
deriving DecidableEq, Repr

/-- Run a sequence of operations from a state; returns the final state, the
list of results the reads returned (in order), and the list of accepted
input portions of the writes (in order).  `none` when any call panics. -/
def CircularBuffer.runTrace [Inhabited α] :
    CircularBuffer α → List (Op α) → Option (CircularBuffer α × List (List α) × List (List α))
  | s, [] => some (s, [], [])
  | s, Op.ext input :: rest =>
    match s.extend input with
    | none => none
    | some (n, s1) =>
      match CircularBuffer.runTrace s1 rest with
      | none => none
      | some (sf, outs, accs) => some (sf, outs, input.take n :: accs)
  | s, Op.psh x :: rest =>
    match s.push x with
    | none => none
    | some (n, s1) =>
      match CircularBuffer.runTrace s1 rest with
      | none => none
      | some (sf, outs, accs) => some (sf, outs, [x].take n :: accs)
  | s, Op.tk k :: rest =>
    match s.take k with
    | none => none
    | some (out, s1) =>
      match CircularBuffer.runTrace s1 rest with
      | none => none
      | some (sf, outs, accs) => some (sf, out :: outs, accs)

theorem CircularBuffer.runTrace_spec [Inhabited α] (ops : List (Op α)) :
    ∀ (s sf : CircularBuffer α) (outs accs : List (List α)), s.Inv →
      s.runTrace ops = some (sf, outs, accs) →
      sf.Inv ∧ sf.capacity = s.capacity ∧
      outs.flatten ++ sf.contents = s.contents ++ accs.flatten := by
  induction ops with
  | nil =>
    intro s sf outs accs hInv hrun
    simp only [CircularBuffer.runTrace, Option.some.injEq, Prod.mk.injEq] at hrun
    obtain ⟨rfl, rfl, rfl⟩ := hrun
    exact ⟨hInv, rfl, by simp⟩
  | cons op rest ih =>
    intro s sf outs accs hInv hrun
    have hstep : ∀ (input : List α) (n : Nat) (s1 : CircularBuffer α),
        s.extend input = some (n, s1) →
        s1.Inv ∧ s1.capacity = s.capacity ∧ s1.contents = s.contents ++ input.take n := by
      intro input n s1 hex
      have hc : 0 < s.capacity := by
        by_contra hc0
        rw [CircularBuffer.extend_none_of_capacity_zero s input (by omega)] at hex
        exact Option.noConfusion hex
      obtain ⟨s', hsome, hInv', hcap', _, _, _, hcont'⟩ :=
        CircularBuffer.extend_spec s input hInv hc
      rw [hex, Option.some.injEq, Prod.mk.injEq] at hsome
      obtain ⟨hn, hs1⟩ := hsome
      subst hs1
      refine ⟨hInv', hcap', ?_⟩
      rw [hcont', hn, take_eq_take_min]
    cases op with
    | ext input =>
      simp only [CircularBuffer.runTrace] at hrun
      split at hrun
      · exact Option.noConfusion hrun
      · rename_i n s1 hex
        split at hrun
        · exact Option.noConfusion hrun
        · rename_i sf1 outs1 accs1 hrt
          simp only [Option.some.injEq, Prod.mk.injEq] at hrun
          obtain ⟨rfl, rfl, rfl⟩ := hrun
          obtain ⟨hInv1, hcap1, hcont1⟩ := hstep input n s1 hex
          obtain ⟨hInvf, hcapf, hjoin⟩ := ih s1 sf1 outs1 accs1 hInv1 hrt
          refine ⟨hInvf, by rw [hcapf, hcap1], ?_⟩
          rw [List.flatten_cons, hjoin, hcont1]
          simp [List.append_assoc]
    | psh x =>
      simp only [CircularBuffer.runTrace] at hrun
      split at hrun
      · exact Option.noConfusion hrun
      · rename_i n s1 hex
        split at hrun
        · exact Option.noConfusion hrun
        · rename_i sf1 outs1 accs1 hrt
          simp only [Option.some.injEq, Prod.mk.injEq] at hrun
          obtain ⟨rfl, rfl, rfl⟩ := hrun
          obtain ⟨hInv1, hcap1, hcont1⟩ := hstep [x] n s1 hex
          obtain ⟨hInvf, hcapf, hjoin⟩ := ih s1 sf1 outs1 accs1 hInv1 hrt
          refine ⟨hInvf, by rw [hcapf, hcap1], ?_⟩
          rw [List.flatten_cons, hjoin, hcont1]
          simp [List.append_assoc]
    | tk k =>
      simp only [CircularBuffer.runTrace] at hrun
      split at hrun
      · exact Option.noConfusion hrun
      · rename_i out s1 htk
        split at hrun
        · exact Option.noConfusion hrun
        · rename_i sf1 outs1 accs1 hrt
          simp only [Option.some.injEq, Prod.mk.injEq] at hrun
          obtain ⟨rfl, rfl, rfl⟩ := hrun
          obtain ⟨s', hsome, hInv', _, hcap', _, _, hcont', _, _⟩ :=
            CircularBuffer.take_spec s k hInv
          rw [htk, Option.some.injEq, Prod.mk.injEq] at hsome
          obtain ⟨hout, hs1⟩ := hsome
          subst hs1
          obtain ⟨hInvf, hcapf, hjoin⟩ := ih s1 sf1 outs1 accs1 hInv' hrt
          refine ⟨hInvf, by rw [hcapf, hcap'], ?_⟩
          rw [List.flatten_cons, List.append_assoc, hjoin, hcont', hout]
          rw [← List.append_assoc, List.take_append_drop]

/-- C1, counterexample: from a fresh capacity-4 buffer, the operation sequence
`extend [1,2,3]; take 2; extend [4]; take 2` reaches a state with
`read_cursor = 4` and `write_cursor = 0`: the buffer is empty (`len = 0`) yet
the cursors are not equal, refuting the claimed biconditional
`write_cursor == read_cursor ↔ len() == 0`. -/
theorem sentinel_cursor_equality_counterexample :
    (CircularBuffer.new Nat 4).runTrace [Op.ext [1, 2, 3], Op.tk 2, Op.ext [4], Op.tk 2]
      = some (⟨[1, 2, 3, 4], 4, 4, 0⟩, [[1, 2], [3, 4]], [[1, 2, 3], [4]])
    ∧ CircularBuffer.len (⟨[1, 2, 3, 4], 4, 4, 0⟩ : CircularBuffer Nat) = 0
    ∧ (⟨[1, 2, 3, 4], 4, 4, 0⟩ : CircularBuffer Nat).write_cursor
        ≠ (⟨[1, 2, 3, 4], 4, 4, 0⟩ : CircularBuffer Nat).read_cursor := by
  decide

/-- C1 (amended): every state reachable from a fresh single-reader buffer by
extend, push, and take satisfies `len() ≤ capacity - 1`; equal cursors always
mean empty; and `len() == 0` holds exactly when the cursors are equal modulo
capacity.  (Literal cursor equality is only one-directional: a take that
consumes exactly up to the physical end of the array leaves
`read_cursor = capacity` while a wrapped write cursor sits at 0.) -/
theorem sentinel_invariant_amended {α : Type} [Inhabited α] (capacity : Nat)
    (ops : List (Op α)) (sf : CircularBuffer α) (outs accs : List (List α))
    (hrun : (CircularBuffer.new α capacity).runTrace ops = some (sf, outs, accs)) :
    sf.len ≤ capacity - 1
    ∧ (sf.write_cursor = sf.read_cursor → sf.len = 0)
    ∧ (sf.len = 0 ↔ sf.write_cursor % sf.capacity = sf.read_cursor % sf.capacity) := by
  obtain ⟨hInv, hcap, _⟩ := CircularBuffer.runTrace_spec ops _ sf outs accs
    (CircularBuffer.inv_new α capacity) hrun
  have hcap' : sf.capacity = capacity := hcap
  refine ⟨?_, CircularBuffer.len_zero_of_cursor_eq sf,
    CircularBuffer.len_zero_iff_mod sf hInv⟩
  rw [← hcap']
  exact CircularBuffer.len_le sf hInv

theorem sentinel_invariant_amended_witness :
    (CircularBuffer.new Nat 4).runTrace [Op.ext [1, 2]]
        = some (⟨[1, 2, 0, 0], 4, 0, 2⟩, [], [[1, 2]])
    ∧ (CircularBuffer.len (⟨[1, 2, 0, 0], 4, 0, 2⟩ : CircularBuffer Nat) ≤ 4 - 1
      ∧ ((⟨[1, 2, 0, 0], 4, 0, 2⟩ : CircularBuffer Nat).write_cursor
            = (⟨[1, 2, 0, 0], 4, 0, 2⟩ : CircularBuffer Nat).read_cursor
          → CircularBuffer.len (⟨[1, 2, 0, 0], 4, 0, 2⟩ : CircularBuffer Nat) = 0)
      ∧ (CircularBuffer.len (⟨[1, 2, 0, 0], 4, 0, 2⟩ : CircularBuffer Nat) = 0
          ↔ (⟨[1, 2, 0, 0], 4, 0, 2⟩ : CircularBuffer Nat).write_cursor
              % (⟨[1, 2, 0, 0], 4, 0, 2⟩ : CircularBuffer Nat).capacity
            = (⟨[1, 2, 0, 0], 4, 0, 2⟩ : CircularBuffer Nat).read_cursor
              % (⟨[1, 2, 0, 0], 4, 0, 2⟩ : CircularBuffer Nat).capacity)) :=
  ⟨by decide, sentinel_invariant_amended 4 [Op.ext [1, 2]]
    ⟨[1, 2, 0, 0], 4, 0, 2⟩ [] [[1, 2]] (by decide)⟩

/-- C2: order preservation.  For any interleaving of extend, push, and take
from a fresh buffer after which the buffer ends up drained, the concatenation
of all take results equals the concatenation of the accepted portions of the
writes, element for element and in order — wraparound included. -/
theorem order_preservation {α : Type} [Inhabited α] (capacity : Nat)
    (ops : List (Op α)) (sf : CircularBuffer α) (outs accs : List (List α))
    (hrun : (CircularBuffer.new α capacity).runTrace ops = some (sf, outs, accs))
    (hdrained : sf.len = 0) :
    outs.flatten = accs.flatten := by
  obtain ⟨hInv, _, hjoin⟩ := CircularBuffer.runTrace_spec ops _ sf outs accs
    (CircularBuffer.inv_new α capacity) hrun
  have h0 : sf.contents = [] := by
    have := CircularBuffer.contents_length sf hInv
    rw [hdrained] at this
    exact List.eq_nil_of_length_eq_zero this
  rw [h0, CircularBuffer.contents_new, List.append_nil, List.nil_append] at hjoin
  exact hjoin

theorem order_preservation_witness :
    (CircularBuffer.new Nat 8).runTrace
        [Op.ext [1, 2, 3, 4, 5, 6, 7], Op.tk 4, Op.ext [8, 9, 10], Op.tk 6]
      = some (⟨[9, 10, 3, 4, 5, 6, 7, 8], 8, 2, 2⟩,
          [[1, 2, 3, 4], [5, 6, 7, 8, 9, 10]], [[1, 2, 3, 4, 5, 6, 7], [8, 9, 10]])
    ∧ CircularBuffer.len (⟨[9, 10, 3, 4, 5, 6, 7, 8], 8, 2, 2⟩ : CircularBuffer Nat) = 0
    ∧ ([[1, 2, 3, 4], [5, 6, 7, 8, 9, 10]] : List (List Nat)).flatten
        = ([[1, 2, 3, 4, 5, 6, 7], [8, 9, 10]] : List (List Nat)).flatten :=
  ⟨by decide, by decide,
    order_preservation 8 [Op.ext [1, 2, 3, 4, 5, 6, 7], Op.tk 4, Op.ext [8, 9, 10], Op.tk 6]
      ⟨[9, 10, 3, 4, 5, 6, 7, 8], 8, 2, 2⟩ [[1, 2, 3, 4], [5, 6, 7, 8, 9, 10]]
      [[1, 2, 3, 4, 5, 6, 7], [8, 9, 10]] (by decide) (by decide)⟩

/-- C3: truncation determinism.  Extending a well-formed buffer of capacity
`C ≥ 1` holding `u = len()` elements with `k` input elements returns exactly
`min k (C - u - 1)` and appends precisely the first `min k (C - u - 1)` input
elements to the logical contents. -/
theorem truncation_determinism {α : Type} (s : CircularBuffer α) (input : List α)
    (h : s.Inv) (hc : 0 < s.capacity) :
    ∃ s', s.extend input = some (min input.length (s.capacity - s.len - 1), s')
      ∧ s'.contents
        = s.contents ++ input.take (min input.length (s.capacity - s.len - 1)) := by
  obtain ⟨s', hsome, _, _, _, _, _, hcont⟩ := CircularBuffer.extend_spec s input h hc
  have he : s.capacity - s.len - 1 = s.capacity - 1 - s.len := by omega
  refine ⟨s', by rw [he]; exact hsome, ?_⟩
  rw [he, hcont, Nat.min_comm, ← take_eq_take_min input (s.capacity - 1 - s.len),
    Nat.min_comm]

theorem truncation_determinism_witness :
    (⟨[1, 2, 0, 0], 4, 0, 2⟩ : CircularBuffer Nat).Inv ∧ (0 : Nat) < 4
    ∧ (∃ s', (⟨[1, 2, 0, 0], 4, 0, 2⟩ : CircularBuffer Nat).extend [7, 8, 9]
        = some (min ([7, 8, 9] : List Nat).length
            (4 - CircularBuffer.len (⟨[1, 2, 0, 0], 4, 0, 2⟩ : CircularBuffer Nat) - 1), s')
      ∧ s'.contents = (⟨[1, 2, 0, 0], 4, 0, 2⟩ : CircularBuffer Nat).contents
          ++ ([7, 8, 9] : List Nat).take (min ([7, 8, 9] : List Nat).length
            (4 - CircularBuffer.len (⟨[1, 2, 0, 0], 4, 0, 2⟩ : CircularBuffer Nat) - 1))) :=
  ⟨by decide, by decide,
    truncation_determinism (⟨[1, 2, 0, 0], 4, 0, 2⟩ : CircularBuffer Nat) [7, 8, 9]
      (by decide) (by decide)⟩

/-- C4: short-read determinism.  `take k` on a well-formed buffer holding
`a = len()` elements returns exactly the first `min k a` available elements in
write order, removes them (the read cursor advances by `min k a` modulo
capacity), never fails, and on an empty buffer returns `[]` leaving the state
unchanged. -/
theorem short_read_determinism {α : Type} [Inhabited α] (s : CircularBuffer α) (k : Nat)
    (h : s.Inv) :
    ∃ s', s.take k = some (s.contents.take k, s')
      ∧ (s.contents.take k).length = min k s.len
      ∧ s'.contents = s.contents.drop k
      ∧ s'.len = s.len - min k s.len
      ∧ s'.buffer = s.buffer ∧ s'.write_cursor = s.write_cursor ∧ s'.capacity = s.capacity
      ∧ s'.read_cursor % s.capacity = (s.read_cursor + min k s.len) % s.capacity
      ∧ (s.len = 0 → s.contents.take k = [] ∧ s' = s) := by
  obtain ⟨s', hsome, _, hbuf, hcap, hwc, hlen, hcont, hrc, hid⟩ :=
    CircularBuffer.take_spec s k h
  have hclen : s.contents.length = s.len := CircularBuffer.contents_length s h
  refine ⟨s', hsome, by rw [List.length_take, hclen], hcont, by omega, hbuf, hwc, hcap,
    by rw [hrc, Nat.min_comm], ?_⟩
  intro h0
  refine ⟨?_, hid h0⟩
  have : s.contents = [] := by
    rw [h0] at hclen
    exact List.eq_nil_of_length_eq_zero hclen
  rw [this, List.take_nil]

theorem short_read_determinism_witness :
    (⟨[9, 10, 3, 4, 5, 6, 7, 8], 8, 4, 2⟩ : CircularBuffer Nat).Inv
    ∧ (∃ s', (⟨[9, 10, 3, 4, 5, 6, 7, 8], 8, 4, 2⟩ : CircularBuffer Nat).take 10
        = some ((⟨[9, 10, 3, 4, 5, 6, 7, 8], 8, 4, 2⟩ : CircularBuffer Nat).contents.take 10, s')
      ∧ ((⟨[9, 10, 3, 4, 5, 6, 7, 8], 8, 4, 2⟩ : CircularBuffer Nat).contents.take 10).length
        = min 10 (CircularBuffer.len (⟨[9, 10, 3, 4, 5, 6, 7, 8], 8, 4, 2⟩ : CircularBuffer Nat))
      ∧ s'.contents = (⟨[9, 10, 3, 4, 5, 6, 7, 8], 8, 4, 2⟩ : CircularBuffer Nat).contents.drop 10
      ∧ s'.len = CircularBuffer.len (⟨[9, 10, 3, 4, 5, 6, 7, 8], 8, 4, 2⟩ : CircularBuffer Nat)
          - min 10 (CircularBuffer.len (⟨[9, 10, 3, 4, 5, 6, 7, 8], 8, 4, 2⟩ : CircularBuffer Nat))
      ∧ s'.buffer = (⟨[9, 10, 3, 4, 5, 6, 7, 8], 8, 4, 2⟩ : CircularBuffer Nat).buffer
      ∧ s'.write_cursor = (⟨[9, 10, 3, 4, 5, 6, 7, 8], 8, 4, 2⟩ : CircularBuffer Nat).write_cursor
      ∧ s'.capacity = (⟨[9, 10, 3, 4, 5, 6, 7, 8], 8, 4, 2⟩ : CircularBuffer Nat).capacity
      ∧ s'.read_cursor % (⟨[9, 10, 3, 4, 5, 6, 7, 8], 8, 4, 2⟩ : CircularBuffer Nat).capacity
        = ((⟨[9, 10, 3, 4, 5, 6, 7, 8], 8, 4, 2⟩ : CircularBuffer Nat).read_cursor
            + min 10 (CircularBuffer.len
              (⟨[9, 10, 3, 4, 5, 6, 7, 8], 8, 4, 2⟩ : CircularBuffer Nat)))
          % (⟨[9, 10, 3, 4, 5, 6, 7, 8], 8, 4, 2⟩ : CircularBuffer Nat).capacity
      ∧ (CircularBuffer.len (⟨[9, 10, 3, 4, 5, 6, 7, 8], 8, 4, 2⟩ : CircularBuffer Nat) = 0
          → (⟨[9, 10, 3, 4, 5, 6, 7, 8], 8, 4, 2⟩ : CircularBuffer Nat).contents.take 10 = []
            ∧ s' = ⟨[9, 10, 3, 4, 5, 6, 7, 8], 8, 4, 2⟩)) :=
  ⟨by decide,
    short_read_determinism (⟨[9, 10, 3, 4, 5, 6, 7, 8], 8, 4, 2⟩ : CircularBuffer Nat) 10
      (by decide)⟩

/-- C9, counterexample: on a `CircularBufferDyn` constructed with capacity 0,
`extend` does not return normally: `available_space` is 0, so
`input[..available_space - 1]` underflows the `usize` subtraction and the call
panics (modelled as `none`) — for a non-empty input and even for the empty
input, rather than being a no-op returning 0. -/
theorem extend_capacity_zero_counterexample :
    (CircularBuffer.new Nat 0).extend [42] = none
    ∧ (CircularBuffer.new Nat 0).extend [] = none := by
  decide

/-- C9 (amended): for every well-formed buffer of capacity ≥ 1 and every input,
`extend` returns normally, truncating oversized input to
`min k (capacity - 1 - len())` accepted elements; a capacity-0 buffer instead
panics in `extend` because `available_space - 1` underflows. -/
theorem extend_total_amended {α : Type} (s : CircularBuffer α) (input : List α)
    (h : s.Inv) (hc : 0 < s.capacity) :
    ∃ n s', s.extend input = some (n, s')
      ∧ n = min input.length (s.capacity - 1 - s.len) := by
  obtain ⟨s', hsome, _⟩ := CircularBuffer.extend_spec s input h hc
  exact ⟨_, s', hsome, rfl⟩

theorem extend_total_amended_witness :
    (CircularBuffer.new Nat 1).Inv ∧ (0 : Nat) < 1
    ∧ (∃ n s', (CircularBuffer.new Nat 1).extend [5] = some (n, s')
      ∧ n = min ([5] : List Nat).length
          (1 - 1 - CircularBuffer.len (CircularBuffer.new Nat 1))) :=
  ⟨by decide, by decide, extend_total_amended (CircularBuffer.new Nat 1) [5]
    (by decide) (by decide)⟩

/-- Modelled from the spec: the opaque read-cursor handle (its defining file is
not under src/; the spec describes it as "an opaque handle encoding the slot
index" that "carries no data itself", and src/circular_buffer_multi_read.rs
constructs it as `ReadCursor(cursor_id)` and reads it as `cursor.0`). -/
structure ReadCursor where
  slot : Nat
deriving DecidableEq, Repr

/-- State of the multi-reader ring `CircularBufferMultiRead<T, CAPACITY,
MAX_READ_CURSOR_COUNT>` (src/circular_buffer_multi_read.rs).  The registry
`read_cursors` always has length `M` and `current_read_cursor_count` counts the
allocated slots. -/
structure CircularBufferMultiRead (α : Type) (C M : Nat) where
  buffer : List α
  read_cursors : List Nat
  current_read_cursor_count : Nat
  write_cursor : Nat
deriving DecidableEq, Repr

/-- `CircularBufferMultiRead::new` (and `new_const`): default-filled storage,
zeroed registry, no cursors allocated. -/
def CircularBufferMultiRead.new (α : Type) [Inhabited α] (C M : Nat) :
    CircularBufferMultiRead α C M :=
  { buffer := List.replicate C default
    read_cursors := List.replicate M 0
    current_read_cursor_count := 0
    write_cursor := 0 }

/-- `CircularBufferMultiRead::len`: the unread amount for one cursor.  The
registry indexing `self.read_cursors[cursor.0]` panics in the source when the
slot is out of range; it is totalised here with `getD _ 0`, and every theorem
below only applies it to allocated slots, which are in range. -/
def CircularBufferMultiRead.len (s : CircularBufferMultiRead α C M)
    (cursor : ReadCursor) : Nat :=
  let read_cursor := s.read_cursors.getD cursor.slot 0
  min (if s.write_cursor ≥ read_cursor then s.write_cursor - read_cursor
       else C - (read_cursor - s.write_cursor)) C

/-- `CircularBufferMultiRead::is_empty`. -/
def CircularBufferMultiRead.is_empty (s : CircularBufferMultiRead α C M)
    (cursor : ReadCursor) : Bool :=
  s.len cursor = 0

/-- `CircularBufferMultiRead::is_full`. -/
def CircularBufferMultiRead.is_full (s : CircularBufferMultiRead α C M)
    (cursor : ReadCursor) : Bool :=
  s.len cursor = C - 1

/-- `CircularBufferMultiRead::create_read_cursor`.  `none` models the aborted
call: the explicit panic when `cursor_id > MAX_READ_CURSOR_COUNT`, or the
index-out-of-range panic of `self.read_cursors[cursor_id] = ...` (which is the
one that actually fires when the registry is exactly full, since the guard uses
`>` rather than `>=`). -/
def CircularBufferMultiRead.create_read_cursor (s : CircularBufferMultiRead α C M) :
    Option (ReadCursor × CircularBufferMultiRead α C M) :=
  let cursor_id := s.current_read_cursor_count
  if cursor_id > M then none
  else if cursor_id < s.read_cursors.length then
    some (⟨cursor_id⟩,
      { s with current_read_cursor_count := cursor_id + 1
               read_cursors := s.read_cursors.set cursor_id s.write_cursor })
  else none

/-- `CircularBufferMultiRead::skip_current_data`: fast-forward one cursor to
the current write cursor.  (`List.set` is a no-op out of range where the source
indexing would panic; the theorems below only use allocated, in-range slots.) -/
def CircularBufferMultiRead.skip_current_data (s : CircularBufferMultiRead α C M)
    (cursor : ReadCursor) : CircularBufferMultiRead α C M :=
  { s with read_cursors := s.read_cursors.set cursor.slot s.write_cursor }

/-- The `largest_used_space` computation of `CircularBufferMultiRead::extend`:
`(0..count).map(|i| self.len(&ReadCursor(i))).max().unwrap_or_default()`. -/
def CircularBufferMultiRead.largest_used_space (s : CircularBufferMultiRead α C M) : Nat :=
  ((List.range s.current_read_cursor_count).map (fun cursor_index =>
    s.len ⟨cursor_index⟩)).foldr max 0

/-- `CircularBufferMultiRead::extend` with explicit recursion fuel, exactly as
`CircularBuffer.extendGo` except that the available space is governed by the
largest used space over all allocated cursors. -/
def CircularBufferMultiRead.extendGo :
    Nat → CircularBufferMultiRead α C M → List α → Option (Nat × CircularBufferMultiRead α C M)
  | 0, _, _ => none
  | fuel + 1, s, input =>
    let largest_used_space := s.largest_used_space
    let available_space := C - largest_used_space
    let required_space := input.length
    if required_space ≥ available_space then
      if available_space = 0 then none
      else CircularBufferMultiRead.extendGo fuel s (input.take (available_space - 1))
    else
      let available_space_before_wrap := C - s.write_cursor
      if available_space_before_wrap < required_space then
        match CircularBufferMultiRead.extendGo fuel s
            (input.take available_space_before_wrap) with
        | none => none
        | some (n1, s1) =>
          match CircularBufferMultiRead.extendGo fuel s1
              (input.drop available_space_before_wrap) with
          | none => none
          | some (n2, s2) => some (n1 + n2, s2)
      else
        if s.write_cursor + required_space ≤ s.buffer.length ∧ 0 < C then
          some (required_space,
            { s with buffer := setSlice s.buffer s.write_cursor input
                     write_cursor := (s.write_cursor + required_space) % C })
        else none

/-- `CircularBufferMultiRead::extend`. -/
def CircularBufferMultiRead.extend (s : CircularBufferMultiRead α C M) (input : List α) :
    Option (Nat × CircularBufferMultiRead α C M) :=
  CircularBufferMultiRead.extendGo (input.length + 1) s input

/-- `CircularBufferMultiRead::push`. -/
def CircularBufferMultiRead.push (s : CircularBufferMultiRead α C M) (input : α) :
    Option (Nat × CircularBufferMultiRead α C M) :=
  s.extend [input]

/-- `CircularBufferMultiRead::take_to_buffer`: like the single-reader version
but reading and writing only the registry entry of the named cursor. -/
def CircularBufferMultiRead.take_to_buffer (s : CircularBufferMultiRead α C M)
    (output : List α) (read_cursor_ref : ReadCursor) :
    Option (Nat × CircularBufferMultiRead α C M × List α) :=
  let read_cursor := s.read_cursors.getD read_cursor_ref.slot 0
  let used_space := s.len read_cursor_ref
  if used_space = 0 then some (0, s, output)
  else
    let used_required_space := min used_space output.length
    let straight_space := min used_required_space (C - read_cursor)
    if read_cursor + straight_space ≤ s.buffer.length then
      let output1 := setSlice output 0 ((s.buffer.drop read_cursor).take straight_space)
      let rc1 := read_cursor + straight_space
      let wrapped_space := used_required_space - straight_space
      if wrapped_space = 0 then
        some (straight_space,
          { s with read_cursors := s.read_cursors.set read_cursor_ref.slot rc1 }, output1)
      else if rc1 < C then none
      else
        let rc2 := rc1 - C
        if rc2 + wrapped_space ≤ s.buffer.length then
          some (straight_space + wrapped_space,
            { s with read_cursors :=
              s.read_cursors.set read_cursor_ref.slot (rc2 + wrapped_space) },
            setSlice output1 straight_space ((s.buffer.drop rc2).take wrapped_space))
        else none
    else none

/-- `CircularBufferMultiRead::take`. -/
def CircularBufferMultiRead.take [Inhabited α] (s : CircularBufferMultiRead α C M)
    (amount : Nat) (read_cursor : ReadCursor) :
    Option (List α × CircularBufferMultiRead α C M) :=
  let output_buffer := List.replicate amount (default : α)
  match s.take_to_buffer output_buffer read_cursor with
  | none => none
  | some (written_amount, s1, output) => some (output.take written_amount, s1)

/-- `CircularBufferMultiRead::take_one`. -/
def CircularBufferMultiRead.take_one [Inhabited α] (s : CircularBufferMultiRead α C M)
    (read_cursor : ReadCursor) : Option (α × CircularBufferMultiRead α C M) :=
  match s.take 1 read_cursor with
  | none => none
  | some (found, s1) =>
    some ((match found with
      | [] => default
      | x :: _ => x), s1)

/-- `CircularBufferMultiRead::take_all`. -/
def CircularBufferMultiRead.take_all [Inhabited α] (s : CircularBufferMultiRead α C M)
    (read_cursor : ReadCursor) : Option (List α × CircularBufferMultiRead α C M) :=
  s.take (s.len read_cursor) read_cursor

/-- Well-formedness of a multi-reader ring state.  Like the single-reader
invariant, an allocated cursor may sit at `C` itself after a read that consumed
exactly up to the physical end of the array. -/
abbrev CircularBufferMultiRead.Inv (s : CircularBufferMultiRead α C M) : Prop :=
  s.buffer.length = C ∧ s.read_cursors.length = M ∧
    s.current_read_cursor_count ≤ M ∧ s.write_cursor < C ∧
    ∀ i, i < s.current_read_cursor_count → s.read_cursors.getD i 0 ≤ C

theorem foldr_max_le {l : List Nat} {b : Nat} (h : ∀ x ∈ l, x ≤ b) :
    l.foldr max 0 ≤ b := by
  induction l with
  | nil => exact Nat.zero_le b
  | cons a l ih =>
    simp only [List.foldr_cons]
    have := h a (List.mem_cons_self a l)
    have := ih (fun x hx => h x (List.mem_cons_of_mem a hx))
    omega

theorem le_foldr_max {l : List Nat} {x : Nat} (h : x ∈ l) : x ≤ l.foldr max 0 := by
  induction l with
  | nil => cases h
  | cons a l ih =>
    simp only [List.foldr_cons]
    rcases List.mem_cons.mp h with rfl | h'
    · omega
    · have := ih h'
      omega

theorem CircularBufferMultiRead.cursor_len_le (s : CircularBufferMultiRead α C M)
    (cursor : ReadCursor) (hw : s.write_cursor < C)
    (hrc : s.read_cursors.getD cursor.slot 0 ≤ C) :
    s.len cursor ≤ C - 1 := by
  unfold CircularBufferMultiRead.len
  dsimp only
  split <;> omega

theorem CircularBufferMultiRead.extendGo_noroom (fuel : Nat) :
    ∀ (s : CircularBufferMultiRead α C M) (input : List α), s.buffer.length = C →
      s.write_cursor < C → s.largest_used_space = C - 1 → input.length < fuel →
      CircularBufferMultiRead.extendGo fuel s input = some (0, s) := by
  induction fuel with
  | zero => intro s input _ _ _ hfl; omega
  | succ fuel ih =>
    intro s input hb hw hlarge hfl
    simp only [CircularBufferMultiRead.extendGo]
    rw [hlarge, show C - (C - 1) = 1 from by omega]
    cases input with
    | nil =>
      simp only [List.length_nil]
      rw [if_neg (by omega : ¬(0 ≥ 1)), if_neg (by omega : ¬(C - s.write_cursor < 0)),
        if_pos (⟨by omega, by omega⟩ : s.write_cursor + 0 ≤ s.buffer.length ∧ 0 < C),
        show setSlice s.buffer s.write_cursor [] = s.buffer from by simp [setSlice],
        Nat.add_zero, Nat.mod_eq_of_lt hw]
    | cons x xs =>
      simp only [List.length_cons] at hfl ⊢
      rw [if_pos (by omega : xs.length + 1 ≥ 1), if_neg (by omega : ¬(1 = 0)),
        show (1 : Nat) - 1 = 0 from rfl, List.take_zero]
      exact ih s [] hb hw hlarge (by simp only [List.length_nil]; omega)

/-- C5: the slowest reader governs the writer.  `extend` computes its available
space as `CAPACITY` minus the maximum `len` over all allocated cursors, so if
any allocated cursor's `len` equals `CAPACITY - 1`, `extend` accepts 0 elements
and returns with the whole state — write cursor, backing store and registry —
unchanged, regardless of the input and of how drained the other cursors are. -/
theorem slowest_reader_governs {α : Type} {C M : Nat} (s : CircularBufferMultiRead α C M)
    (input : List α) (h : s.Inv) (i : Nat) (hi : i < s.current_read_cursor_count)
    (hfull : s.len ⟨i⟩ = C - 1) :
    s.extend input = some (0, s) := by
  obtain ⟨hb, hm, hcnt, hw, hbound⟩ := h
  have hlarge : s.largest_used_space = C - 1 := by
    unfold CircularBufferMultiRead.largest_used_space
    apply le_antisymm
    · apply foldr_max_le
      intro x hx
      obtain ⟨j, hj, rfl⟩ := List.mem_map.mp hx
      exact CircularBufferMultiRead.cursor_len_le s ⟨j⟩ hw (hbound j (List.mem_range.mp hj))
    · rw [← hfull]
      exact le_foldr_max (List.mem_map.mpr ⟨i, List.mem_range.mpr hi, rfl⟩)
  unfold CircularBufferMultiRead.extend
  exact CircularBufferMultiRead.extendGo_noroom (input.length + 1) s input hb hw hlarge
    (Nat.lt_succ_self _)

theorem slowest_reader_governs_witness :
    (⟨[1, 2, 3, 0], [0, 1], 2, 3⟩ : CircularBufferMultiRead Nat 4 2).Inv
    ∧ (0 : Nat) < 2
    ∧ CircularBufferMultiRead.len
        (⟨[1, 2, 3, 0], [0, 1], 2, 3⟩ : CircularBufferMultiRead Nat 4 2) ⟨0⟩ = 4 - 1
    ∧ (⟨[1, 2, 3, 0], [0, 1], 2, 3⟩ : CircularBufferMultiRead Nat 4 2).extend [9]
      = some (0, ⟨[1, 2, 3, 0], [0, 1], 2, 3⟩) :=
  ⟨by decide, by decide, by decide,
    slowest_reader_governs (⟨[1, 2, 3, 0], [0, 1], 2, 3⟩ : CircularBufferMultiRead Nat 4 2)
      [9] (by decide) 0 (by decide) (by decide)⟩

/-- C6: with the registry already holding `MAX_READ_CURSOR_COUNT` allocated
cursors, `create_read_cursor` aborts instead of returning a handle (the
out-of-range registry write panics, the explicit guard using `>` never firing
first), so it cannot alias two handles onto one slot or overwrite another
reader's cursor position. -/
theorem create_read_cursor_full_aborts {α : Type} {C M : Nat}
    (s : CircularBufferMultiRead α C M) (hlen : s.read_cursors.length = M)
    (hcount : s.current_read_cursor_count = M) :
    s.create_read_cursor = none := by
  unfold CircularBufferMultiRead.create_read_cursor
  dsimp only
  rw [hcount, if_neg (by omega : ¬(M > M)),
    if_neg (by rw [hlen]; omega : ¬(M < s.read_cursors.length))]

theorem create_read_cursor_full_aborts_witness :
    ([5, 7] : List Nat).length = 2 ∧ (2 : Nat) = 2
    ∧ (⟨[0, 0], [5, 7], 2, 1⟩ : CircularBufferMultiRead Nat 2 2).create_read_cursor = none :=
  ⟨by decide, by decide,
    create_read_cursor_full_aborts (⟨[0, 0], [5, 7], 2, 1⟩ : CircularBufferMultiRead Nat 2 2)
      (by decide) (by decide)⟩

/-- C7: with a free registry slot, `create_read_cursor` hands out the next free
slot index as the handle, initialises that cursor to the current write cursor
(so the new reader sees `len = 0`, only data written after creation), and
leaves the write cursor, the backing store, and every previously allocated
cursor's position unchanged. -/
theorem create_read_cursor_fresh {α : Type} {C M : Nat}
    (s : CircularBufferMultiRead α C M) (hlen : s.read_cursors.length = M)
    (hcount : s.current_read_cursor_count < M) :
    ∃ s', s.create_read_cursor = some (⟨s.current_read_cursor_count⟩, s')
      ∧ s'.len ⟨s.current_read_cursor_count⟩ = 0
      ∧ s'.read_cursors.getD s.current_read_cursor_count 0 = s.write_cursor
      ∧ s'.current_read_cursor_count = s.current_read_cursor_count + 1
      ∧ s'.write_cursor = s.write_cursor
      ∧ s'.buffer = s.buffer
      ∧ ∀ i, i ≠ s.current_read_cursor_count →
          s'.read_cursors.getD i 0 = s.read_cursors.getD i 0 := by
  have hset : (s.read_cursors.set s.current_read_cursor_count
      s.write_cursor).getD s.current_read_cursor_count 0 = s.write_cursor := by
    simp [List.getD, List.getElem?_set_self',
      List.getElem?_eq_getElem (show s.current_read_cursor_count < s.read_cursors.length
        from by omega)]
  refine ⟨{ s with current_read_cursor_count := s.current_read_cursor_count + 1
                   read_cursors :=
                     s.read_cursors.set s.current_read_cursor_count s.write_cursor },
    ?_, ?_, hset, rfl, rfl, rfl, ?_⟩
  · unfold CircularBufferMultiRead.create_read_cursor
    dsimp only
    rw [if_neg (by omega : ¬(s.current_read_cursor_count > M)),
      if_pos (show s.current_read_cursor_count < s.read_cursors.length from by omega)]
  · unfold CircularBufferMultiRead.len
    dsimp only
    rw [hset]
    simp
  · intro i hi
    simp [List.getD, List.getElem?_set_ne (Ne.symm hi)]

theorem create_read_cursor_fresh_witness :
    ([4, 0] : List Nat).length = 2
    ∧ (⟨[0, 0, 0], [4, 0], 1, 2⟩ : CircularBufferMultiRead Nat 3 2).current_read_cursor_count < 2
    ∧ (∃ s', (⟨[0, 0, 0], [4, 0], 1, 2⟩ :
          CircularBufferMultiRead Nat 3 2).create_read_cursor = some (⟨1⟩, s')
      ∧ s'.len ⟨1⟩ = 0
      ∧ s'.read_cursors.getD 1 0 = 2
      ∧ s'.current_read_cursor_count = 1 + 1
      ∧ s'.write_cursor = 2
      ∧ s'.buffer = [0, 0, 0]
      ∧ ∀ i, i ≠ 1 → s'.read_cursors.getD i 0
          = ([4, 0] : List Nat).getD i 0) :=
  ⟨by decide, by decide,
    create_read_cursor_fresh (⟨[0, 0, 0], [4, 0], 1, 2⟩ : CircularBufferMultiRead Nat 3 2)
      (by decide) (by decide)⟩

theorem CircularBufferMultiRead.take_to_buffer_frame {α : Type} {C M : Nat}
    (s : CircularBufferMultiRead α C M) (output : List α) (r : ReadCursor)
    (h : s.Inv) (hslot : r.slot < s.current_read_cursor_count) :
    ∃ m s' out, s.take_to_buffer output r = some (m, s', out)
      ∧ s'.buffer = s.buffer ∧ s'.write_cursor = s.write_cursor
      ∧ s'.current_read_cursor_count = s.current_read_cursor_count
      ∧ ∀ i, i ≠ r.slot → s'.read_cursors.getD i 0 = s.read_cursors.getD i 0 := by
  obtain ⟨hb, hm, hcnt, hw, hbound⟩ := h
  have hrc : s.read_cursors.getD r.slot 0 ≤ C := hbound r.slot hslot
  have hlen : s.len r ≤ C - 1 := CircularBufferMultiRead.cursor_len_le s r hw hrc
  unfold CircularBufferMultiRead.take_to_buffer
  dsimp only
  by_cases hu0 : s.len r = 0
  · rw [if_pos hu0]
    exact ⟨0, s, output, rfl, rfl, rfl, rfl, fun i _ => rfl⟩
  · rw [if_neg hu0]
    set rc := s.read_cursors.getD r.slot 0 with hrcdef
    set ur := min (s.len r) output.length with hur
    set st := min ur (C - rc) with hst
    rw [if_pos (show rc + st ≤ s.buffer.length by rw [hb]; omega)]
    by_cases hwr : ur - st = 0
    · rw [if_pos hwr]
      refine ⟨st, _, _, rfl, rfl, rfl, rfl, ?_⟩
      intro i hi
      simp [List.getD, List.getElem?_set_ne (Ne.symm hi)]
    · rw [if_neg hwr, if_neg (show ¬(rc + st < C) by omega),
        show rc + st - C = 0 from by omega,
        if_pos (show 0 + (ur - st) ≤ s.buffer.length by rw [hb]; omega)]
      refine ⟨st + (ur - st), _, _, rfl, rfl, rfl, rfl, ?_⟩
      intro i hi
      simp [List.getD, List.getElem?_set_ne (Ne.symm hi)]

theorem CircularBufferMultiRead.take_frame {α : Type} {C M : Nat} [Inhabited α]
    (s : CircularBufferMultiRead α C M) (h : s.Inv) (r : ReadCursor)
    (hslot : r.slot < s.current_read_cursor_count) (k : Nat) :
    ∃ out s', s.take k r = some (out, s')
      ∧ s'.buffer = s.buffer ∧ s'.write_cursor = s.write_cursor
      ∧ s'.current_read_cursor_count = s.current_read_cursor_count
      ∧ ∀ i, i ≠ r.slot → s'.read_cursors.getD i 0 = s.read_cursors.getD i 0 := by
  obtain ⟨m, s', out, htb, hbuf, hwc, hcnt, hother⟩ :=
    CircularBufferMultiRead.take_to_buffer_frame s (List.replicate k (default : α)) r h hslot
  refine ⟨out.take m, s', ?_, hbuf, hwc, hcnt, hother⟩
  simp only [CircularBufferMultiRead.take]
  simp only [htb]

/-- C8: the reads are cursor-local.  For an allocated handle, `take`,
`take_one`, `take_all` and `skip_current_data` mutate only that handle's
registry entry: the write cursor, the backing store, the cursor count, and
every other registry entry are unchanged.  `skip_current_data` sets the
handle's entry to the current write cursor, making its `len` 0, while the `len`
of every other cursor is unchanged. -/
theorem reader_ops_frame {α : Type} {C M : Nat} [Inhabited α]
    (s : CircularBufferMultiRead α C M) (h : s.Inv) (r : ReadCursor)
    (hslot : r.slot < s.current_read_cursor_count) :
    (∀ k, ∃ out s', s.take k r = some (out, s')
      ∧ s'.buffer = s.buffer ∧ s'.write_cursor = s.write_cursor
      ∧ s'.current_read_cursor_count = s.current_read_cursor_count
      ∧ ∀ i, i ≠ r.slot → s'.read_cursors.getD i 0 = s.read_cursors.getD i 0)
    ∧ (∃ x s', s.take_one r = some (x, s')
      ∧ s'.buffer = s.buffer ∧ s'.write_cursor = s.write_cursor
      ∧ s'.current_read_cursor_count = s.current_read_cursor_count
      ∧ ∀ i, i ≠ r.slot → s'.read_cursors.getD i 0 = s.read_cursors.getD i 0)
    ∧ (∃ out s', s.take_all r = some (out, s')
      ∧ s'.buffer = s.buffer ∧ s'.write_cursor = s.write_cursor
      ∧ s'.current_read_cursor_count = s.current_read_cursor_count
      ∧ ∀ i, i ≠ r.slot → s'.read_cursors.getD i 0 = s.read_cursors.getD i 0)
    ∧ ((s.skip_current_data r).buffer = s.buffer
      ∧ (s.skip_current_data r).write_cursor = s.write_cursor
      ∧ (s.skip_current_data r).current_read_cursor_count = s.current_read_cursor_count
      ∧ (s.skip_current_data r).len r = 0
      ∧ (∀ i, i ≠ r.slot →
          (s.skip_current_data r).read_cursors.getD i 0 = s.read_cursors.getD i 0)
      ∧ ∀ r2 : ReadCursor, r2.slot ≠ r.slot →
          (s.skip_current_data r).len r2 = s.len r2) := by
  obtain ⟨hb, hm, hcnt, hw, hbound⟩ := h
  have hsetd : ∀ i, i ≠ r.slot →
      (s.read_cursors.set r.slot s.write_cursor).getD i 0 = s.read_cursors.getD i 0 := by
    intro i hi
    simp [List.getD, List.getElem?_set_ne (Ne.symm hi)]
  refine ⟨fun k => CircularBufferMultiRead.take_frame s ⟨hb, hm, hcnt, hw, hbound⟩ r hslot k,
    ?_, ?_, rfl, rfl, rfl, ?_, hsetd, ?_⟩
  · obtain ⟨out, s', htk, hbuf, hwc, hcnt', hother⟩ :=
      CircularBufferMultiRead.take_frame s ⟨hb, hm, hcnt, hw, hbound⟩ r hslot 1
    cases out with
    | nil =>
      exact ⟨default, s',
        by simp only [CircularBufferMultiRead.take_one]; simp only [htk],
        hbuf, hwc, hcnt', hother⟩
    | cons y ys =>
      exact ⟨y, s',
        by simp only [CircularBufferMultiRead.take_one]; simp only [htk],
        hbuf, hwc, hcnt', hother⟩
  · obtain ⟨out, s', htk, hbuf, hwc, hcnt', hother⟩ :=
      CircularBufferMultiRead.take_frame s ⟨hb, hm, hcnt, hw, hbound⟩ r hslot (s.len r)
    exact ⟨out, s', htk, hbuf, hwc, hcnt', hother⟩
  · unfold CircularBufferMultiRead.len CircularBufferMultiRead.skip_current_data
    dsimp only
    rw [show (s.read_cursors.set r.slot s.write_cursor).getD r.slot 0 = s.write_cursor from by
      simp [List.getD, List.getElem?_set_self',
        List.getElem?_eq_getElem (show r.slot < s.read_cursors.length from by omega)]]
    simp
  · intro r2 hr2
    unfold CircularBufferMultiRead.len CircularBufferMultiRead.skip_current_data
    dsimp only
    rw [hsetd r2.slot hr2]

theorem reader_ops_frame_witness :
    (⟨[1, 2, 3, 0], [0, 1], 2, 3⟩ : CircularBufferMultiRead Nat 4 2).Inv
    ∧ (⟨1⟩ : ReadCursor).slot
        < (⟨[1, 2, 3, 0], [0, 1], 2, 3⟩ :
            CircularBufferMultiRead Nat 4 2).current_read_cursor_count
    ∧ ((∀ k, ∃ out s', (⟨[1, 2, 3, 0], [0, 1], 2, 3⟩ :
            CircularBufferMultiRead Nat 4 2).take k ⟨1⟩ = some (out, s')
        ∧ s'.buffer = [1, 2, 3, 0] ∧ s'.write_cursor = 3
        ∧ s'.current_read_cursor_count = 2
        ∧ ∀ i, i ≠ 1 → s'.read_cursors.getD i 0 = ([0, 1] : List Nat).getD i 0)
      ∧ (∃ x s', (⟨[1, 2, 3, 0], [0, 1], 2, 3⟩ :
            CircularBufferMultiRead Nat 4 2).take_one ⟨1⟩ = some (x, s')
        ∧ s'.buffer = [1, 2, 3, 0] ∧ s'.write_cursor = 3
        ∧ s'.current_read_cursor_count = 2
        ∧ ∀ i, i ≠ 1 → s'.read_cursors.getD i 0 = ([0, 1] : List Nat).getD i 0)
      ∧ (∃ out s', (⟨[1, 2, 3, 0], [0, 1], 2, 3⟩ :
            CircularBufferMultiRead Nat 4 2).take_all ⟨1⟩ = some (out, s')
        ∧ s'.buffer = [1, 2, 3, 0] ∧ s'.write_cursor = 3
        ∧ s'.current_read_cursor_count = 2
        ∧ ∀ i, i ≠ 1 → s'.read_cursors.getD i 0 = ([0, 1] : List Nat).getD i 0)
      ∧ (((⟨[1, 2, 3, 0], [0, 1], 2, 3⟩ :
            CircularBufferMultiRead Nat 4 2).skip_current_data ⟨1⟩).buffer = [1, 2, 3, 0]
        ∧ ((⟨[1, 2, 3, 0], [0, 1], 2, 3⟩ :
            CircularBufferMultiRead Nat 4 2).skip_current_data ⟨1⟩).write_cursor = 3
        ∧ ((⟨[1, 2, 3, 0], [0, 1], 2, 3⟩ :
            CircularBufferMultiRead Nat 4 2).skip_current_data ⟨1⟩).current_read_cursor_count
          = 2
        ∧ ((⟨[1, 2, 3, 0], [0, 1], 2, 3⟩ :
            CircularBufferMultiRead Nat 4 2).skip_current_data ⟨1⟩).len ⟨1⟩ = 0
        ∧ (∀ i, i ≠ 1 → ((⟨[1, 2, 3, 0], [0, 1], 2, 3⟩ :
            CircularBufferMultiRead Nat 4 2).skip_current_data ⟨1⟩).read_cursors.getD i 0
          = ([0, 1] : List Nat).getD i 0)
        ∧ ∀ r2 : ReadCursor, r2.slot ≠ 1 →
            ((⟨[1, 2, 3, 0], [0, 1], 2, 3⟩ :
              CircularBufferMultiRead Nat 4 2).skip_current_data ⟨1⟩).len r2
            = (⟨[1, 2, 3, 0], [0, 1], 2, 3⟩ : CircularBufferMultiRead Nat 4 2).len r2)) :=
  ⟨by decide, by decide,
    reader_ops_frame (⟨[1, 2, 3, 0], [0, 1], 2, 3⟩ : CircularBufferMultiRead Nat 4 2)
      (by decide) ⟨1⟩ (by decide)⟩

theorem CircularBufferMultiRead.largest_zero (s : CircularBufferMultiRead α C M)
    (hcount : s.current_read_cursor_count = 0) : s.largest_used_space = 0 := by
  unfold CircularBufferMultiRead.largest_used_space
  rw [hcount]
  simp

theorem CircularBufferMultiRead.extendGo_no_cursors (fuel : Nat) :
    ∀ (s : CircularBufferMultiRead α C M) (input : List α), s.buffer.length = C →
      s.current_read_cursor_count = 0 → s.write_cursor < C → input.length < fuel →
      ∃ s', CircularBufferMultiRead.extendGo fuel s input
          = some (min input.length (C - 1), s')
        ∧ s'.buffer.length = C ∧ s'.current_read_cursor_count = 0
        ∧ s'.read_cursors = s.read_cursors
        ∧ s'.write_cursor = (s.write_cursor + min input.length (C - 1)) % C
        ∧ s'.write_cursor < C := by
  induction fuel with
  | zero => intro s input _ _ _ hfl; omega
  | succ fuel ih =>
    intro s input hb hcount hw hfl
    have hC : 0 < C := by omega
    simp only [CircularBufferMultiRead.extendGo]
    rw [CircularBufferMultiRead.largest_zero s hcount, Nat.sub_zero]
    by_cases h1 : input.length ≥ C
    · rw [if_pos h1, if_neg (by omega : ¬(C = 0))]
      have htl : (input.take (C - 1)).length = C - 1 := by rw [List.length_take]; omega
      have hfl' : (input.take (C - 1)).length < fuel := by rw [htl]; omega
      obtain ⟨s', hgo, hb', hcount', hrcs', hwc', hwlt'⟩ :=
        ih s (input.take (C - 1)) hb hcount hw hfl'
      have hmin : min (input.take (C - 1)).length (C - 1) = min input.length (C - 1) := by
        rw [htl]; omega
      exact ⟨s', by rw [hgo, hmin], hb', hcount', hrcs', by rw [hwc', hmin], hwlt'⟩
    · rw [if_neg (by omega : ¬(input.length ≥ C))]
      by_cases h2 : C - s.write_cursor < input.length
      · rw [if_pos h2]
        have hbw : 1 ≤ C - s.write_cursor := by omega
        have htl1 : (input.take (C - s.write_cursor)).length = C - s.write_cursor := by
          rw [List.length_take]; omega
        have hfl1 : (input.take (C - s.write_cursor)).length < fuel := by rw [htl1]; omega
        obtain ⟨s1, hgo1, hb1, hcount1, hrcs1, hwc1, hwlt1⟩ :=
          ih s (input.take (C - s.write_cursor)) hb hcount hw hfl1
        have hmin1 : min (input.take (C - s.write_cursor)).length (C - 1)
            = C - s.write_cursor := by rw [htl1]; omega
        rw [hmin1] at hgo1 hwc1
        have hwc1' : s1.write_cursor = 0 := by
          rw [hwc1, show s.write_cursor + (C - s.write_cursor) = C from by omega, Nat.mod_self]
        have htl2 : (input.drop (C - s.write_cursor)).length
            = input.length - (C - s.write_cursor) := by rw [List.length_drop]
        have hfl2 : (input.drop (C - s.write_cursor)).length < fuel := by rw [htl2]; omega
        obtain ⟨s2, hgo2, hb2, hcount2, hrcs2, hwc2, hwlt2⟩ :=
          ih s1 (input.drop (C - s.write_cursor)) hb1 hcount1 hwlt1 hfl2
        have hmin2 : min (input.drop (C - s.write_cursor)).length (C - 1)
            = input.length - (C - s.write_cursor) := by rw [htl2]; omega
        rw [hmin2] at hgo2 hwc2
        simp only [hgo1, hgo2]
        refine ⟨s2, ?_, hb2, hcount2, by rw [hrcs2, hrcs1], ?_, hwlt2⟩
        · rw [show C - s.write_cursor + (input.length - (C - s.write_cursor))
              = min input.length (C - 1) from by omega]
        · rw [hwc2, hwc1', Nat.zero_add,
            show min input.length (C - 1) = input.length from by omega,
            show s.write_cursor + input.length
              = C + (input.length - (C - s.write_cursor)) from by omega,
            Nat.add_mod_left]
      · rw [if_neg h2,
          if_pos (⟨by omega, hC⟩ : s.write_cursor + input.length ≤ s.buffer.length ∧ 0 < C)]
        have hminb : min input.length (C - 1) = input.length := by omega
        refine ⟨{ s with buffer := setSlice s.buffer s.write_cursor input
                         write_cursor := (s.write_cursor + input.length) % C },
          by rw [hminb], ?_, hcount, rfl, by rw [hminb], Nat.mod_lt _ hC⟩
        dsimp only
        rw [setSlice_length s.buffer s.write_cursor input (by omega), hb]

/-- C10: with zero allocated read cursors, `extend` computes the largest used
space as 0 (the maximum over the empty cursor set defaults to 0), so every call
accepts exactly `min k (CAPACITY - 1)` elements and advances the write cursor
by that amount modulo capacity, regardless of earlier writes — previously
written data is silently overwritten with no backpressure. -/
theorem extend_without_readers {α : Type} {C M : Nat} (s : CircularBufferMultiRead α C M)
    (input : List α) (hb : s.buffer.length = C)
    (hcount : s.current_read_cursor_count = 0) (hw : s.write_cursor < C) :
    ∃ s', s.extend input = some (min input.length (C - 1), s')
      ∧ s'.write_cursor = (s.write_cursor + min input.length (C - 1)) % C
      ∧ s'.current_read_cursor_count = 0
      ∧ s'.read_cursors = s.read_cursors := by
  obtain ⟨s', hgo, _, hcount', hrcs', hwc', _⟩ :=
    CircularBufferMultiRead.extendGo_no_cursors (input.length + 1) s input hb hcount hw
      (Nat.lt_succ_self _)
  exact ⟨s', hgo, hwc', hcount', hrcs'⟩

theorem extend_without_readers_witness :
    ([1, 2, 3, 4] : List Nat).length = 4
    ∧ (⟨[1, 2, 3, 4], [], 0, 2⟩ : CircularBufferMultiRead Nat 4 0).current_read_cursor_count = 0
    ∧ (⟨[1, 2, 3, 4], [], 0, 2⟩ : CircularBufferMultiRead Nat 4 0).write_cursor < 4
    ∧ (∃ s', (⟨[1, 2, 3, 4], [], 0, 2⟩ : CircularBufferMultiRead Nat 4 0).extend
          [7, 8, 9, 10, 11]
        = some (min ([7, 8, 9, 10, 11] : List Nat).length (4 - 1), s')
      ∧ s'.write_cursor = (2 + min ([7, 8, 9, 10, 11] : List Nat).length (4 - 1)) % 4
      ∧ s'.current_read_cursor_count = 0
      ∧ s'.read_cursors = []) :=
  ⟨by decide, by decide, by decide,
    extend_without_readers (⟨[1, 2, 3, 4], [], 0, 2⟩ : CircularBufferMultiRead Nat 4 0)
      [7, 8, 9, 10, 11] (by decide) (by decide) (by decide)⟩
